import Mathlib

/-!
Shallow embedding of the `halo2-course` example circuits
(`src/halo-hero/examples/`): the adder circuit (`adder.rs`), the
Fibonacci/instances circuit (`instances.rs`), the random-linear-combination
circuit (`session-7.rs`), the regex-automaton circuit (`tiny-ram.rs`), the
range-check / read-write-table circuit (`session-9.rs`) and the Sudoku
circuit (`ex-suduko.rs`).

The circuits are clients of the halo2 proving library, which is not part of
this repository; the pieces of that library the examples depend on
(`Value`, `Expression`, the region assignment API) are modelled from the
specification, while every gate, lookup, table and region assignment below
is translated directly from the example source files.
-/

namespace HaloHero

/-- Modelled from the spec: halo2's `Value<T>` wrapper ("Value-with-Unknown"),
`tagged Known(T) | Unknown`, whose `map`/`and_then` propagate `Unknown`
without evaluating the function.  The halo2 library itself is not part of
this repository. -/
inductive Value (α : Type u) where
  | unknown : Value α
  | known : α → Value α
  deriving DecidableEq, Repr

namespace Value

/-- Modelled from the spec: `Value::map`, propagating `Unknown`. -/
def map (v : Value α) (f : α → β) : Value β :=
  match v with
  | .unknown => .unknown
  | .known a => .known (f a)

/-- Modelled from the spec: `Value::and_then`, propagating `Unknown`. -/
def andThen (v : Value α) (f : α → Value β) : Value β :=
  match v with
  | .unknown => .unknown
  | .known a => f a

/-- A Rust closure body applied under `Value::map` may panic (e.g. an
out-of-bounds `Vec` index).  `mapPanic v f` models `v.map(f)` where the
closure body `f` returns `none` exactly when the Rust body would panic:
the result is `none` (a panic of the whole pass) in that case, and
otherwise the mapped `Value`.  When `v` is `Unknown` the closure body is
never evaluated, so no panic can occur. -/
def mapPanic (v : Value α) (f : α → Option β) : Option (Value β) :=
  match v with
  | .unknown => some .unknown
  | .known a => (f a).map Value.known

end Value

/-- Modelled from the spec: the symbolic `Expression` tree built by gate and
lookup closures — "immutable tree over {Constant(scalar), Query(column,
row-offset), Selector(ref), Challenge(ref), Sum, Product, Negation,
ScalarMul}".  Selector, challenge and column queries are all identified
here by a query index (the argument of `query`); `eval` resolves a query
index to the value of the queried cell / selector / challenge at the row
under consideration. -/
inductive Expr (F : Type) where
  | const : F → Expr F
  | query : ℕ → Expr F
  | add : Expr F → Expr F → Expr F
  | sub : Expr F → Expr F → Expr F
  | mul : Expr F → Expr F → Expr F
  | neg : Expr F → Expr F

namespace Expr

variable {F : Type} [CommRing F]

/-- Evaluate an expression against an environment assigning a field value to
every query index. -/
def eval (env : ℕ → F) : Expr F → F
  | .const c => c
  | .query q => env q
  | .add a b => eval env a + eval env b
  | .sub a b => eval env a - eval env b
  | .mul a b => eval env a * eval env b
  | .neg a => -eval env a

end Expr

/-! ### The gates registered by the example circuits (claim C2)

Query indices used by each gate are listed next to its definition; the
selector query of a gate always has index 0. -/

/-- The adder circuit's "step" gate (`adder.rs`, `configure`):
`vec![q_enable * (curr - next + Expression::Constant(F::ONE))]`.
Query indices: 0 = `q_enable`, 1 = `curr` (advice, cur row),
2 = `next` (advice, next row). -/
def adderStepGate (F : Type) [CommRing F] : List (Expr F) :=
  [.mul (.query 0) (.add (.sub (.query 1) (.query 2)) (.const 1))]

/-- The instances circuit's "fibonacci" gate (`instances.rs`, `configure`).
Query indices: 0 = `q_fib` (`enable`), 1 = `idx0`, 2 = `idx1`,
3 = `w0`, 4 = `w1`, 5 = `w2`, 6 = `bit` (the flag).
`not_bit = 1 - bit`; the five constraints mirror the source `vec![..]`. -/
def fibonacciGate (F : Type) [CommRing F] : List (Expr F) :=
  let enable : Expr F := .query 0
  let idx0 : Expr F := .query 1
  let idx1 : Expr F := .query 2
  let w0 : Expr F := .query 3
  let w1 : Expr F := .query 4
  let w2 : Expr F := .query 5
  let bit : Expr F := .query 6
  let notBit : Expr F := .sub (.const 1) bit
  [ .mul enable (.mul bit notBit),
    .mul enable (.mul bit (.sub (.add w0 w1) w2)),
    .mul enable (.mul bit (.sub (.sub idx1 idx0) (.const 1))),
    .mul enable (.mul notBit (.sub w1 w2)),
    .mul enable (.mul notBit (.sub idx1 idx0)) ]

/-- The Sudoku circuit's "arith" gate (`ex-suduko.rs`,
`ArithmeticChip::configure`):
`q_arith * (0 + c0*w0 + c1*w1 + c2*w2 + cm*(w0*w1) + cc)`.
Query indices: 0 = `q_arith`, 1 = `w0`, 2 = `w1`, 3 = `w2`,
4 = `c0`, 5 = `c1`, 6 = `c2`, 7 = `cm`, 8 = `cc`. -/
def arithGate (F : Type) [CommRing F] : List (Expr F) :=
  let w0 : Expr F := .query 1
  let w1 : Expr F := .query 2
  let w2 : Expr F := .query 3
  let c0 : Expr F := .query 4
  let c1 : Expr F := .query 5
  let c2 : Expr F := .query 6
  let cm : Expr F := .query 7
  let cc : Expr F := .query 8
  let e : Expr F := .const 0
  let e : Expr F := .add e (.mul c0 w0)
  let e : Expr F := .add e (.mul c1 w1)
  let e : Expr F := .add e (.mul c2 w2)
  let e : Expr F := .add e (.mul cm (.mul w0 w1))
  let e : Expr F := .add e cc
  [.mul (.query 0) e]

/-! ### Lookup arguments and tables (claims C3, C4, C6) -/

/-- Automaton states (`tiny-ram.rs`): `ST_A = 1`, `ST_B = 2`, `ST_C = 3`,
`ST_START = ST_A`, `ST_DONE = 4`. -/
def ST_A : ℕ := 1

def ST_B : ℕ := 2

def ST_C : ℕ := 3

def ST_START : ℕ := ST_A

def ST_DONE : ℕ := 4

/-- End-of-file padding character marker (`tiny-ram.rs`): `EOF = 0xFFFF`. -/
def EOF : ℕ := 0xFFFF

/-- The conversion of the regular expression `a+b+c` (`tiny-ram.rs`,
`REGEX`): `(st_cur, st_nxt, Option<char>)` transitions. -/
def REGEX : List (ℕ × ℕ × Option Char) :=
  [ (ST_A, ST_A, some 'a'),
    (ST_A, ST_B, some 'a'),
    (ST_B, ST_B, some 'b'),
    (ST_B, ST_C, some 'b'),
    (ST_C, ST_DONE, some 'c'),
    (ST_DONE, ST_DONE, none) ]

def MAX_STR_LEN : ℕ := 20

/-- The transition table assigned by `tiny-ram.rs::synthesize` inside
`assign_table`: the row `(0, 0, 0)` (placed "to account for q_regex = 0")
followed by the `REGEX` transitions, with `None` characters mapped to
`EOF`.  Values are kept as the natural numbers the source feeds to
`F::from(_ as u64)`. -/
def transitionTable : List (ℕ × ℕ × ℕ) :=
  (0, 0, 0) ::
    REGEX.map (fun tx =>
      (tx.1, tx.2.1, (tx.2.2.map (fun c => c.toNat)).getD EOF))

/-- The "step" lookup's input expressions (`tiny-ram.rs`, `configure`):
`[(en * st_cur, tbl_st_cur), (en * st_nxt, tbl_st_nxt), (en * ch, tbl_ch)]`.
Query indices: 0 = `q_regex` (`en`), 1 = `st_cur`, 2 = `st_nxt`, 3 = `ch`. -/
def regexLookupInputs (F : Type) [CommRing F] : List (Expr F) :=
  [ .mul (.query 0) (.query 1),
    .mul (.query 0) (.query 2),
    .mul (.query 0) (.query 3) ]

/-- The range-check table contents (`session-9.rs`, `RangeTable::load`):
the values `0, 1, ..., 2^BITS - 1` assigned at offsets `0, 1, ...` in
order. -/
def rangeTableRows (BITS : ℕ) : List ℕ :=
  List.range (2 ^ BITS)

/-- One "lookup_limb" input expression (`session-9.rs`,
`RangeConfig::configure`): `q_enable * limb`.
Query indices: 0 = `q_enable`, 1 = the limb advice cell. -/
def limbLookupInput (F : Type) [CommRing F] : Expr F :=
  .mul (.query 0) (.query 1)

/-- The string matched in `tiny-ram.rs::main`: `"aaabbbc"`. -/
def inputString : List Char := "aaabbbc".toList

/-- The state trace supplied in `tiny-ram.rs::main`:
`[ST_A, ST_A, ST_A, ST_B, ST_B, ST_B, ST_C, ST_DONE]`. -/
def stsTrace : List ℕ :=
  [ST_A, ST_A, ST_A, ST_B, ST_B, ST_B, ST_C, ST_DONE]

/-- Value of the `st` advice column at offset `i` as assigned by
`tiny-ram.rs::synthesize`: offsets `0..MAX_STR_LEN` take
`sts.get(i).cloned().unwrap_or(ST_DONE)`, and offset `MAX_STR_LEN` is
assigned `Value::known(ST_DONE)`. -/
def stCellVal (sts : List ℕ) (i : ℕ) : ℕ :=
  if i < MAX_STR_LEN then (sts.get? i).getD ST_DONE else ST_DONE

/-- Value of the `ch` advice column at offset `i` as assigned by
`tiny-ram.rs::synthesize`:
`s.chars().nth(i).map(|c| F::from(c as u64)).unwrap_or(F::from(EOF))`. -/
def chCellVal (str : List Char) (i : ℕ) : ℕ :=
  ((str.get? i).map (fun c => c.toNat)).getD EOF

/-- The state trace of `tiny-ram.rs::main` with its first state altered from
`ST_A` to `ST_B`, making row 0's lookup tuple `(ST_B, ST_A, 'a')` absent
from the transition table while leaving every other row's tuple intact. -/
def stsTraceAltered : List ℕ :=
  [ST_B, ST_A, ST_A, ST_B, ST_B, ST_B, ST_C, ST_DONE]

/-- The 8-bit little-endian limb decomposition computed by
`session-9.rs::RangeConfig::check`: the `LIMBS * BITS` low little-endian
bits of the value, in chunks of `BITS` bits, each chunk summed as
`v += 1 << i` over its set bits. -/
def decomposeLimbs (BITS LIMBS : ℕ) (v : ℕ) : List ℕ :=
  (List.range LIMBS).map (fun j =>
    (List.range BITS).foldl
      (fun acc i => if v.testBit (j * BITS + i) then acc + 2 ^ i else acc) 0)

/-- The "combine" gate (`session-9.rs`, `RangeConfig::configure`):
`(combine - value) * q_enable`, where `combine` is built by the fold
`combine = combine + Constant(power) * limb; power *= 2^BITS` starting
from `Constant(0)` and `power = 1`.
Query indices: 0 = `value`, 1 = `q_enable`, `2 + i` = limb `i`. -/
def combineGate (F : Type) [CommRing F] (BITS LIMBS : ℕ) : Expr F :=
  let folded : Expr F × F :=
    (List.range LIMBS).foldl
      (fun acc i => (.add acc.1 (.mul (.const acc.2) (.query (2 + i))), acc.2 * 2 ^ BITS))
      (.const 0, 1)
  .mul (.sub folded.1 (.query 0)) (.query 1)

/-- `RLCChip::compute_rlc` (`session-7.rs`): starting from `rlc = 0` and
`c = 1`, each advice value contributes `advs[i] * c` and `c` is then
multiplied by the challenge. -/
def computeRlc {F : Type} [CommRing F] (challenge : F) (advs : List F) : F :=
  (advs.foldl (fun s a => (s.1 + a * s.2, s.2 * challenge)) ((0 : F), (1 : F))).1

/-- The value closure of the `rlc` cell assigned by `RLCChip::alloc_row`
(`session-7.rs`):
`challenge.and_then(|c| value.and_then(|v| Value::known(self.compute_rlc(c, v))))`. -/
def rlcCellValue {F : Type} [CommRing F] (challenge : Value F) (value : Value (List F)) :
    Value F :=
  challenge.andThen fun c => value.andThen fun v => Value.known (computeRlc c v)

/-- The six-row assignment hard-coded in `session-7.rs::main`. -/
def rlcAssignment : List (List ℕ) :=
  [[1, 2, 3], [4, 5, 6], [4, 5, 6], [1, 2, 3],
   [0xbeef, 0xcafe, 0xf00d], [1, 2, 3]]

/-- The equality constraints of `session-7.rs`: `ROW_EQUALITY = [(0,3), (0,5), (1,2)]`. -/
def ROW_EQUALITY : List (ℕ × ℕ) := [(0, 3), (0, 5), (1, 2)]

/-! ### The Sudoku circuit (claim C5) -/

def DIM : ℕ := 9

def SQR : ℕ := 3

/-- The fixed Sudoku puzzle of `ex-suduko.rs` (`SUDUKO`), 0 = blank. -/
def SUDUKO : List (List ℕ) :=
  [ [5, 3, 0, 0, 7, 0, 0, 0, 0],
    [6, 0, 0, 1, 9, 5, 0, 0, 0],
    [0, 9, 8, 0, 0, 0, 0, 6, 0],
    [8, 0, 0, 0, 6, 0, 0, 0, 3],
    [4, 0, 0, 8, 0, 3, 0, 0, 1],
    [7, 0, 0, 0, 2, 0, 0, 0, 6],
    [0, 6, 0, 0, 0, 0, 2, 8, 0],
    [0, 0, 0, 4, 1, 9, 0, 0, 5],
    [0, 0, 0, 0, 8, 0, 0, 7, 9] ]

/-- The solution witness of `ex-suduko.rs::main` (`SOLUTION`). -/
def SOLUTION : List (List ℕ) :=
  [ [5, 3, 4, 6, 7, 8, 9, 1, 2],
    [6, 7, 2, 1, 9, 5, 3, 4, 8],
    [1, 9, 8, 3, 4, 2, 5, 6, 7],
    [8, 5, 9, 7, 6, 1, 4, 2, 3],
    [4, 2, 6, 8, 5, 3, 7, 9, 1],
    [7, 1, 3, 9, 2, 4, 8, 5, 6],
    [9, 6, 1, 5, 3, 7, 2, 8, 4],
    [2, 8, 7, 4, 1, 9, 6, 3, 5],
    [3, 4, 5, 2, 8, 6, 1, 7, 9] ]

/-- `SOLUTION` with the free cell `(0, 2)` (blank in `SUDUKO`) altered from
4 to 5, duplicating the digit 5 in row 0. -/
def SOLUTION_DUP : List (List ℕ) :=
  [ [5, 3, 5, 6, 7, 8, 9, 1, 2],
    [6, 7, 2, 1, 9, 5, 3, 4, 8],
    [1, 9, 8, 3, 4, 2, 5, 6, 7],
    [8, 5, 9, 7, 6, 1, 4, 2, 3],
    [4, 2, 6, 8, 5, 3, 7, 9, 1],
    [7, 1, 3, 9, 2, 4, 8, 5, 6],
    [9, 6, 1, 5, 3, 7, 2, 8, 4],
    [2, 8, 7, 4, 1, 9, 6, 3, 5],
    [3, 4, 5, 2, 8, 6, 1, 7, 9] ]

/-- The cell values loaded by `ex-suduko.rs::synthesize`: for each `(i, j)`,
`match suduko[i][j] { 0 => free(sol[i][j]), fixed => constant(fixed) }`. -/
def gridVals (suduko sol : List (List ℕ)) : List (List ℕ) :=
  (List.range DIM).map fun i =>
    (List.range DIM).map fun j =>
      match (suduko.getD i []).getD j 0 with
      | 0 => (sol.getD i []).getD j 0
      | fixed => fixed

/-- The 27 distinctness groups collected by `ex-suduko.rs::synthesize`:
the 9 rows, then the 9 columns, then the 9 `3×3` blocks (blocks
enumerated row-of-blocks first, cells within a block row first). -/
def sudokuGroups (cells : List (List ℕ)) : List (List ℕ) :=
  ((List.range DIM).map fun row => cells.getD row []) ++
  ((List.range DIM).map fun col => cells.map fun row => row.getD col 0) ++
  ((List.range (DIM / SQR)).flatMap fun i =>
    (List.range (DIM / SQR)).map fun j =>
      (List.range SQR).flatMap fun ii =>
        (List.range SQR).map fun jj =>
          (cells.getD (i * SQR + ii) []).getD (j * SQR + jj) 0)

/-- The allowed entries `1..=DIM` loaded as constants by
`ex-suduko.rs::synthesize` (`numbers`). -/
def refNumbers : List ℕ :=
  (List.range DIM).map fun n => n + 1

/-- `ex-suduko.rs::eval_vanish`: starting from the constant 1, multiply in
`(term - alpha)` for each term in order. -/
def evalVanish {F : Type} [CommRing F] (alpha : F) (terms : List F) : F :=
  terms.foldl (fun poly term => poly * (term - alpha)) 1

/-- The polynomial in the challenge computed by `eval_vanish`: the same fold
as `evalVanish` with the challenge left symbolic. -/
noncomputable def vanishPoly {F : Type} [CommRing F] (terms : List F) : Polynomial F :=
  terms.foldl (fun poly term => poly * (Polynomial.C term - Polynomial.X)) 1

/-- The first distinctness group (row 0) of the grid loaded from the
duplicated solution `SOLUTION_DUP`. -/
def dupRow : List ℕ :=
  (sudokuGroups (gridVals SUDUKO SOLUTION_DUP)).getD 0 []

/-! ### The `bit` region of the Sudoku circuit's arithmetic chip (claim C9) -/

/-- Fixed-column identifiers of the `ArithmeticChip`:
`c0 = 0`, `c1 = 1`, `c2 = 2`, `cc = 3`, `cm = 4`. -/
def COL_C0 : ℕ := 0

def COL_C1 : ℕ := 1

def COL_C2 : ℕ := 2

def COL_CC : ℕ := 3

def COL_CM : ℕ := 4

/-- The fixed-column write log of `ArithmeticChip::bit` at relative row 0
(`ex-suduko.rs`), in source order.  The writes labeled "c0", "c1" and
"c2" all name `self.c0` as their target column; "cc" targets `self.cc`
and "cm" targets `self.cm`. -/
def bitFixedWrites (F : Type) [CommRing F] : List (ℕ × F) :=
  [(COL_C0, 0), (COL_C0, -1), (COL_C0, 0), (COL_CC, 0), (COL_CM, 1)]

/-- Last-write-wins evaluation of a fixed write log: the effective value of
a column is the last value written to it, and `0` (the backend's default
for never-assigned fixed cells) otherwise. -/
def lastWrite {F : Type} [CommRing F] (log : List (ℕ × F)) (col : ℕ) : F :=
  (((log.filter (fun w => w.1 == col)).map (fun w => w.2)).getLast?).getD 0

/-- The "arith" gate environment produced by the `bit` region when the bit
cells hold the value `v`: the selector is enabled, `w0 = w1 = v` (both
advice cells are assigned from the same closure and copy-constrained),
`w2 = 0` (the "junk" write), and each fixed-coefficient query reads the
effective last-write-wins value of the region's fixed write log. -/
def bitCellEnv (F : Type) [CommRing F] (v : F) : ℕ → F :=
  fun q =>
    if q = 0 then 1
    else if q = 1 then v
    else if q = 2 then v
    else if q = 3 then 0
    else if q = 4 then lastWrite (bitFixedWrites F) COL_C0
    else if q = 5 then lastWrite (bitFixedWrites F) COL_C1
    else if q = 6 then lastWrite (bitFixedWrites F) COL_C2
    else if q = 7 then lastWrite (bitFixedWrites F) COL_CM
    else lastWrite (bitFixedWrites F) COL_CC

/-- The field value `ArithmeticChip::bit` assigns for the boolean witness
`b`: `if b { F::ONE } else { F::ZERO }`. -/
def bitWitnessVal (F : Type) [CommRing F] (b : Bool) : F :=
  if b then 1 else 0

/-! ### The read-write table of `session-9.rs` (claim C10) -/

/-- A row of the read-write table (`session-9.rs`, `RwRow`): `addr` and
`rw_counter` are `u32` values, `val_old`/`val_new` are field elements. -/
structure RwRow (F : Type) where
  addr : Fin (2 ^ 32)
  val_new : F
  val_old : F
  rw_counter : Fin (2 ^ 32)
  is_write : Bool

/-- `RwRow::key`: `(self.addr as u64) << 32 | self.rw_counter as u64`. -/
def RwRow.key {F : Type} (r : RwRow F) : ℕ :=
  ((r.addr : ℕ) <<< 32) ||| (r.rw_counter : ℕ)

/-- 64-bit wrapping subtraction `a.wrapping_sub(b)` for `a, b < 2^64`. -/
def wrappingSub64 (a b : ℕ) : ℕ :=
  (a + 2 ^ 64 - b) % 2 ^ 64

/-- The rows on which `RwTable::assign_with_region` enables `q_enable`:
iterating `i in 0..ROWS`, row `i` is enabled exactly when
`i != ROWS - 1`. -/
def rwEnabledRows (ROWS : ℕ) : List ℕ :=
  (List.range ROWS).filter (fun i => i != ROWS - 1)

/-- The delta values computed by `StateConfig::assign`:
`rows.windows(2).map(|win| win[1].key().wrapping_sub(win[0].key()))`,
assigned to the `delta` column at offsets `0 .. ROWS - 2`. -/
def rwDeltas {F : Type} (rows : List (RwRow F)) : List ℕ :=
  (rows.zip rows.tail).map (fun w => wrappingSub64 w.2.key w.1.key)

/-- The four read-write rows built in `session-9.rs::main`. -/
def mainRwRows : List (RwRow ℤ) :=
  [⟨0, 1, 0, 0, true⟩, ⟨0, 1, 1, 2, false⟩, ⟨1, 2, 0, 1, true⟩, ⟨2, 3, 0, 3, true⟩]

/-- The scalar field modulus of the bn256 curve, over which every example
circuit is instantiated (`halo2curves::bn256::Fr`). -/
def bnR : ℕ :=
  21888242871839275222246405745257275088548364400416034343698204186575808495617

/-- The bn256 scalar field `Fr`. -/
abbrev Fr : Type := ZMod bnR

instance : Fact (Nat.Prime 11) := ⟨by norm_num⟩

/-! ### Synthesis traces of the example circuits (claim C1)

`synthesize` is modelled as the sequence of layouter operations it performs:
region openings, advice/fixed/table-cell writes (with their `Value`
payloads), selector enablings and equality constraints, in source order.
A run returns `none` when a Rust value closure would panic (an
out-of-bounds `Vec` index inside a `Known` witness).  Column, selector and
region identifiers are numbered in declaration order within each circuit;
equality-constraint cell handles are `(column, allocation index)` pairs. -/

/-- One layouter operation recorded during a synthesis pass, with the
assigned `Value` payloads. -/
inductive LayoutEvent (F : Type) where
  | regionStart (name : ℕ)
  | tableStart (name : ℕ)
  | assignAdvice (col row : ℕ) (v : Value F)
  | assignFixed (col row : ℕ) (v : Value F)
  | assignTableCell (col row : ℕ) (v : Value F)
  | enableSelector (sel row : ℕ)
  | constrainEqualCells (a b : ℕ × ℕ)

/-- A layouter operation with the value payloads erased: the layout datum
(which region / column / row is touched, in which order). -/
inductive ShapeEvent where
  | regionStart (name : ℕ)
  | tableStart (name : ℕ)
  | assignAdvice (col row : ℕ)
  | assignFixed (col row : ℕ)
  | assignTableCell (col row : ℕ)
  | enableSelector (sel row : ℕ)
  | constrainEqualCells (a b : ℕ × ℕ)
  deriving DecidableEq, Repr

/-- Erase the value payload of a layout event. -/
def LayoutEvent.shape {F : Type} : LayoutEvent F → ShapeEvent
  | .regionStart n => .regionStart n
  | .tableStart n => .tableStart n
  | .assignAdvice c r _ => .assignAdvice c r
  | .assignFixed c r _ => .assignFixed c r
  | .assignTableCell c r _ => .assignTableCell c r
  | .enableSelector s r => .enableSelector s r
  | .constrainEqualCells a b => .constrainEqualCells a b

/-- The layout (shape) of a possibly-panicking synthesis run. -/
def shapeOf {F : Type} (r : Option (List (LayoutEvent F))) : Option (List ShapeEvent) :=
  r.map fun evs => evs.map LayoutEvent.shape

/-- `adder.rs`: `STEPS = 5`. -/
def STEPS : ℕ := 5

/-- The first `n` iterations of the `for i in 0..STEPS` loop of
`adder.rs::synthesize`: assign the advice cell at offset `i` from
`self.values.as_ref().map(|values| values[i])` (the indexing panics on a
`Known` witness shorter than `i + 1`), then enable `q_enable` at `i`. -/
def adderStepsEvents (F : Type) [CommRing F] (values : Value (List F)) :
    ℕ → Option (List (LayoutEvent F))
  | 0 => some []
  | n + 1 => do
      let rest ← adderStepsEvents F values n
      let v ← values.mapPanic fun vs => vs.get? n
      some (rest ++ [.assignAdvice 0 n v, .enableSelector 0 n])

/-- `adder.rs::synthesize`: one region ("steps", tag 0) holding the `STEPS`
loop iterations followed by the final `next` advice write at offset
`STEPS`. -/
def adderSynthesize (F : Type) [CommRing F] (values : Value (List F)) :
    Option (List (LayoutEvent F)) := do
  let steps ← adderStepsEvents F values STEPS
  let vLast ← values.mapPanic fun vs => vs.get? STEPS
  some (.regionStart 0 :: steps ++ [.assignAdvice 0 STEPS vLast])

/-- `session-7.rs::RLCChip::alloc_row` (`N = 3`): one region
("fingerprint-row", tag 1) assigning the three advice columns (0, 1, 2)
at offset 0 from the row value, enabling `q_enable` (selector 0), and
assigning the `rlc` column (3) from
`challenge.and_then(|c| value.and_then(|v| known(compute_rlc(c, v))))`. -/
def allocRowEvents (F : Type) [CommRing F] (chal : Value F) (value : Value (F × F × F)) :
    List (LayoutEvent F) :=
  [ .regionStart 1,
    .assignAdvice 0 0 (value.map fun v => v.1),
    .assignAdvice 1 0 (value.map fun v => v.2.1),
    .assignAdvice 2 0 (value.map fun v => v.2.2),
    .enableSelector 0 0,
    .assignAdvice 3 0 (chal.andThen fun c => value.andThen fun v =>
      Value.known (computeRlc c [v.1, v.2.1, v.2.2])) ]

/-- `num_rows` of `session-7.rs::synthesize`:
`eq_rows.iter().map(|(a, b)| max(a, b)).max().unwrap() + 1`; the
`unwrap` panics on an empty list. -/
def session7NumRows (eqRows : List (ℕ × ℕ)) : Option ℕ :=
  (match eqRows.map (fun p : ℕ × ℕ => max p.1 p.2) with
    | [] => none
    | x :: xs => some (xs.foldl max x)).map (· + 1)

/-- The first `n` iterations of the row-allocation loop of
`session-7.rs::synthesize`: row `i` is `alloc_row` applied to
`self.assignment.as_ref().map(|v| v[i])` (the indexing panics on a
`Known` witness shorter than `i + 1`). -/
def session7LoopEvents (F : Type) [CommRing F] (chal : Value F)
    (assignment : Value (List (F × F × F))) : ℕ → Option (List (LayoutEvent F))
  | 0 => some []
  | n + 1 => do
      let rest ← session7LoopEvents F chal assignment n
      let v ← assignment.mapPanic fun vs => vs.get? n
      some (rest ++ allocRowEvents F chal v)

/-- The "eq" region body of `session-7.rs::synthesize`: for each pair in
`eq_rows`, constrain the `rlc` cells (column 3) of the two allocation
indices equal; the `rlcs[lhs]` indexing panics when an index reaches
beyond the allocated rows. -/
def session7EqEvents (F : Type) (eqRows : List (ℕ × ℕ)) (numRows : ℕ) :
    Option (List (LayoutEvent F)) :=
  eqRows.foldlM (fun acc p => do
    let cl ← ((List.range numRows).map fun i => ((3 : ℕ), i)).get? p.1
    let cr ← ((List.range numRows).map fun i => ((3 : ℕ), i)).get? p.2
    some (acc ++ [.constrainEqualCells cl cr])) []

/-- `session-7.rs::synthesize`: compute `num_rows` from the hard-coded
`ROW_EQUALITY` (both the witness instance and the `without_witnesses`
instance carry `eq_rows = ROW_EQUALITY`), allocate the rows, then open
the "eq" region (tag 2). -/
def session7Synthesize (F : Type) [CommRing F] (chal : Value F)
    (assignment : Value (List (F × F × F))) : Option (List (LayoutEvent F)) := do
  let numRows ← session7NumRows ROW_EQUALITY
  let rows ← session7LoopEvents F chal assignment numRows
  let eqs ← session7EqEvents F ROW_EQUALITY numRows
  some (rows ++ .regionStart 2 :: eqs)

/-- The transition-table assignment of `tiny-ram.rs::synthesize`
(`assign_table`, tag 0): for each offset, the `tbl_st_cur` (0),
`tbl_st_nxt` (1) and `tbl_ch` (2) cells are assigned the `Known`
transition tuple; the tuples are witness-independent constants. -/
def tinyRamTableEvents (F : Type) [CommRing F] : List (LayoutEvent F) :=
  .tableStart 0 ::
    (transitionTable.enum.flatMap fun (p : ℕ × ℕ × ℕ × ℕ) =>
      [ .assignTableCell 0 p.1 (.known (p.2.1 : F)),
        .assignTableCell 1 p.1 (.known (p.2.2.1 : F)),
        .assignTableCell 2 p.1 (.known (p.2.2.2 : F)) ])

/-- The "regex" region of `tiny-ram.rs::synthesize` (tag 3): fix the start
state (fixed column 0) and enable `q_match` (selector 1) at offset 0;
for each offset `i < MAX_STR_LEN` enable `q_regex` (selector 0) and
assign the `st` (advice 0) and `ch` (advice 1) cells from the witness
closures (`unwrap_or` defaults make these total); finally assign the
done state and fix it at offset `MAX_STR_LEN`. -/
def tinyRamRegionEvents (F : Type) [CommRing F] (str : Value (List Char))
    (sts : Value (List ℕ)) : List (LayoutEvent F) :=
  [ .regionStart 3,
    .assignFixed 0 0 (.known (ST_START : F)),
    .enableSelector 1 0 ] ++
  ((List.range MAX_STR_LEN).flatMap fun i =>
    [ .enableSelector 0 i,
      .assignAdvice 0 i (sts.map fun s => (((s.get? i).getD ST_DONE : ℕ) : F)),
      .assignAdvice 1 i
        (str.map fun s => ((((s.get? i).map Char.toNat).getD EOF : ℕ) : F)) ]) ++
  [ .assignAdvice 0 MAX_STR_LEN (.known (ST_DONE : F)),
    .assignFixed 0 MAX_STR_LEN (.known (ST_DONE : F)),
    .enableSelector 1 MAX_STR_LEN ]

/-- `tiny-ram.rs::synthesize`: the table assignment followed by the "regex"
region; every witness access is guarded by `unwrap_or`, so the run is
total. -/
def tinyRamSynthesize (F : Type) [CommRing F] (str : Value (List Char))
    (sts : Value (List ℕ)) : List (LayoutEvent F) :=
  tinyRamTableEvents F ++ tinyRamRegionEvents F str sts

end HaloHero

namespace HaloHero

open Expr

namespace Value

@[simp] theorem map_unknown (f : α → β) : (Value.unknown).map f = .unknown := rfl

@[simp] theorem map_known (a : α) (f : α → β) : (Value.known a).map f = .known (f a) := rfl

@[simp] theorem andThen_unknown (f : α → Value β) : (Value.unknown).andThen f = .unknown := rfl

@[simp] theorem andThen_known (a : α) (f : α → Value β) : (Value.known a).andThen f = f a := rfl

@[simp] theorem mapPanic_unknown (f : α → Option β) :
    (Value.unknown).mapPanic f = some .unknown := rfl

@[simp] theorem mapPanic_known (a : α) (f : α → Option β) :
    (Value.known a).mapPanic f = (f a).map Value.known := rfl

end Value

namespace Expr

@[simp] theorem eval_const {F : Type} [CommRing F] (env : ℕ → F) (c : F) :
    eval env (.const c) = c := rfl

@[simp] theorem eval_query {F : Type} [CommRing F] (env : ℕ → F) (q : ℕ) :
    eval env (.query q) = env q := rfl

@[simp] theorem eval_add {F : Type} [CommRing F] (env : ℕ → F) (a b : Expr F) :
    eval env (.add a b) = eval env a + eval env b := rfl

@[simp] theorem eval_sub {F : Type} [CommRing F] (env : ℕ → F) (a b : Expr F) :
    eval env (.sub a b) = eval env a - eval env b := rfl

@[simp] theorem eval_mul {F : Type} [CommRing F] (env : ℕ → F) (a b : Expr F) :
    eval env (.mul a b) = eval env a * eval env b := rfl

@[simp] theorem eval_neg {F : Type} [CommRing F] (env : ℕ → F) (a : Expr F) :
    eval env (.neg a) = -eval env a := rfl

end Expr

/-- C2: every constraint of the adder's "step" gate, the "fibonacci" gate and
the "arith" gate is a product with the gate's queried selector (query
index 0), so at every row where the selector evaluates to 0 every
constraint of the gate evaluates to 0, regardless of the values of the
other queries. -/
theorem gates_vanish_when_selector_zero (F : Type) [CommRing F]
    (env : ℕ → F) (hsel : env 0 = 0) :
    (∀ e ∈ adderStepGate F, e.eval env = 0) ∧
    (∀ e ∈ fibonacciGate F, e.eval env = 0) ∧
    (∀ e ∈ arithGate F, e.eval env = 0) := by
  refine ⟨?_, ?_, ?_⟩
  · intro e he
    simp only [adderStepGate, List.mem_singleton] at he
    subst he; simp [Expr.eval, hsel]
  · intro e he
    simp only [fibonacciGate, List.mem_cons, List.not_mem_nil, or_false] at he
    rcases he with h | h | h | h | h <;> subst h <;> simp [Expr.eval, hsel]
  · intro e he
    simp only [arithGate, List.mem_singleton] at he
    subst he; simp [Expr.eval, hsel]

/-- Witness for `gates_vanish_when_selector_zero` at `F = ℤ` and the
all-zero environment. -/
theorem gates_vanish_when_selector_zero_witness :
    ((fun _ : ℕ => (0 : ℤ)) 0 = 0) ∧
    ((∀ e ∈ adderStepGate ℤ, e.eval (fun _ => 0) = 0) ∧
     (∀ e ∈ fibonacciGate ℤ, e.eval (fun _ => 0) = 0) ∧
     (∀ e ∈ arithGate ℤ, e.eval (fun _ => 0) = 0)) :=
  ⟨rfl, gates_vanish_when_selector_zero ℤ (fun _ => 0) rfl⟩

/-- C6: every example lookup multiplies its inputs by the enabling selector
(query 0) and its table holds the all-zeros tuple at offset 0, so a
disabled row's input tuple is all zeros and matches the table's row 0:
for the regex "step" lookup the inputs evaluate to `(0,0,0)` and
`(0,0,0)` sits at offset 0 of the transition table; for the range-check
"lookup_limb" the input evaluates to `0` and the value `0` sits at
offset 0 of the range table. -/
theorem disabled_lookup_rows_match_zero_row (F : Type) [CommRing F]
    (env : ℕ → F) (hsel : env 0 = 0) :
    ((regexLookupInputs F).map (Expr.eval env) = [0, 0, 0] ∧
      transitionTable.get? 0 = some (0, 0, 0) ∧
      ∃ t ∈ transitionTable, ((t.1 : F), (t.2.1 : F), (t.2.2 : F)) = (0, 0, 0)) ∧
    ((limbLookupInput F).eval env = 0 ∧
      (rangeTableRows 8).get? 0 = some 0 ∧
      ∃ n ∈ rangeTableRows 8, (n : F) = 0) := by
  refine ⟨⟨?_, by decide, ?_⟩, ?_, ?_, ?_⟩
  · simp [regexLookupInputs, Expr.eval, hsel]
  · exact ⟨(0, 0, 0), by decide, by simp⟩
  · simp [limbLookupInput, Expr.eval, hsel]
  · simp [rangeTableRows]
  · exact ⟨0, by decide, Nat.cast_zero⟩

/-- Witness for `disabled_lookup_rows_match_zero_row` at `F = ℤ` and the
all-zero environment. -/
theorem disabled_lookup_rows_match_zero_row_witness :
    ((fun _ : ℕ => (0 : ℤ)) 0 = 0) ∧
    (((regexLookupInputs ℤ).map (Expr.eval (fun _ => 0)) = [0, 0, 0] ∧
      transitionTable.get? 0 = some (0, 0, 0) ∧
      ∃ t ∈ transitionTable, ((t.1 : ℤ), (t.2.1 : ℤ), (t.2.2 : ℤ)) = (0, 0, 0)) ∧
    ((limbLookupInput ℤ).eval (fun _ => 0) = 0 ∧
      (rangeTableRows 8).get? 0 = some 0 ∧
      ∃ n ∈ rangeTableRows 8, (n : ℤ) = 0)) :=
  ⟨rfl, disabled_lookup_rows_match_zero_row ℤ (fun _ => 0) rfl⟩

/-- C3: in the regex-automaton circuit run on `"aaabbbc"` with the state
trace of `main`, padded with `ST_DONE` and `EOF` up to `MAX_STR_LEN = 20`
rows, every row's tuple `(st_i, st_{i+1}, ch_i)` is one of the 7 tuples
of the transition table, so every "step" lookup is satisfied; altering
the first trace state from `ST_A` to `ST_B` makes row 0's tuple absent
from the table while every other row's tuple remains present — the
lookup is violated exactly at that row. -/
theorem regex_trace_lookup_rows (i : ℕ) (hi : i < MAX_STR_LEN) :
    transitionTable.length = 7 ∧
    (stCellVal stsTrace i, stCellVal stsTrace (i + 1), chCellVal inputString i) ∈
      transitionTable ∧
    (stCellVal stsTraceAltered 0, stCellVal stsTraceAltered 1, chCellVal inputString 0) ∉
      transitionTable ∧
    (∀ j, j < MAX_STR_LEN → 0 < j →
      (stCellVal stsTraceAltered j, stCellVal stsTraceAltered (j + 1),
        chCellVal inputString j) ∈ transitionTable) := by
  have hall : ∀ k, k < 20 →
      (stCellVal stsTrace k, stCellVal stsTrace (k + 1), chCellVal inputString k) ∈
        transitionTable := by decide
  have halt : ∀ j, j < 20 → 0 < j →
      (stCellVal stsTraceAltered j, stCellVal stsTraceAltered (j + 1),
        chCellVal inputString j) ∈ transitionTable := by decide
  exact ⟨by decide, hall i hi, by decide, halt⟩

/-- Witness for `regex_trace_lookup_rows` at row `i = 0`. -/
theorem regex_trace_lookup_rows_witness :
    (0 < MAX_STR_LEN) ∧
    (transitionTable.length = 7 ∧
    (stCellVal stsTrace 0, stCellVal stsTrace 1, chCellVal inputString 0) ∈
      transitionTable ∧
    (stCellVal stsTraceAltered 0, stCellVal stsTraceAltered 1, chCellVal inputString 0) ∉
      transitionTable ∧
    (∀ j, j < MAX_STR_LEN → 0 < j →
      (stCellVal stsTraceAltered j, stCellVal stsTraceAltered (j + 1),
        chCellVal inputString j) ∈ transitionTable)) :=
  ⟨by decide, regex_trace_lookup_rows 0 (by decide)⟩

/-- C4: `RangeConfig::<F, 8, 8>::check` on the value 10000 computes the
8 little-endian 8-bit limbs `[16, 39, 0, 0, 0, 0, 0, 0]`; those limbs
satisfy the "combine" gate (the sum `Σ limb_i * 256^i` equals 10000 so
the gate expression evaluates to 0 with the selector on); every limb
appears in the 256-entry range table `{0, ..., 255}` loaded by
`RangeTable::load`; and the value 256 does not appear in that table, so
a limb mutated to 256 fails its "lookup_limb" argument. -/
theorem range_check_of_10000 :
    decomposeLimbs 8 8 10000 = [16, 39, 0, 0, 0, 0, 0, 0] ∧
    (combineGate Fr 8 8).eval
        (fun q => if q = 0 then (10000 : Fr) else if q = 1 then 1
          else ((decomposeLimbs 8 8 10000).getD (q - 2) 0 : Fr)) = 0 ∧
    (∀ l ∈ decomposeLimbs 8 8 10000, (l : Fr) ∈ (rangeTableRows 8).map (fun n => (n : Fr))) ∧
    (256 : Fr) ∉ (rangeTableRows 8).map (fun n => (n : Fr)) := by
  refine ⟨by decide, by decide, by decide, by decide⟩

/-- The running state of `compute_rlc`'s loop: folding from an arbitrary
accumulator `(r, k)`, the first component ends at
`r + Σ_i advs[i] * (challenge^i * k)`. -/
theorem computeRlc_foldl_aux {F : Type} [CommRing F] (challenge : F) (advs : List F)
    (r k : F) :
    (advs.foldl (fun s a => (s.1 + a * s.2, s.2 * challenge)) (r, k)).1 =
      r + ∑ i ∈ Finset.range advs.length, advs.getD i 0 * (challenge ^ i * k) := by
  induction advs generalizing r k with
  | nil => simp
  | cons a l ih =>
      rw [List.foldl_cons, ih, List.length_cons, Finset.sum_range_succ']
      have hbody : ∀ i ∈ Finset.range l.length,
          (a :: l).getD (i + 1) 0 * (challenge ^ (i + 1) * k) =
            l.getD i 0 * (challenge ^ i * (k * challenge)) := by
        intro i _
        rw [List.getD_cons_succ, pow_succ]
        ring
      rw [Finset.sum_congr rfl hbody]
      simp only [List.getD_cons_zero, pow_zero, one_mul]
      ring

/-- C7: when the challenge `Value` is `Unknown`, `and_then`/`map` propagate
`Unknown` without evaluating the deriving function (the result is
`Unknown` for every function `f`): in particular `RLCChip::alloc_row`'s
`rlc` cell closure yields `Unknown` — never a `Known` default or zero
scalar — without invoking `compute_rlc`. -/
theorem unknown_challenge_propagates (F : Type) [CommRing F] :
    (∀ (α β : Type) (f : α → Value β), (Value.unknown : Value α).andThen f = .unknown) ∧
    (∀ (α β : Type) (f : α → β), (Value.unknown : Value α).map f = .unknown) ∧
    (∀ value : Value (List F), rlcCellValue .unknown value = .unknown) ∧
    (∀ x : F, (Value.unknown : Value F) ≠ Value.known x) := by
  refine ⟨fun α β f => rfl, fun α β f => rfl, fun value => rfl, fun x h => by cases h⟩

/-- C8: `compute_rlc(c, advs)` equals `Σ_{i < N} advs[i] * c^i` — the value
the "rlc" gate constrains — and for the six-row assignment of
`session-7.rs::main`, for every challenge value, the `rlc` cells joined
by `constrain_equal` through `ROW_EQUALITY = [(0,3), (0,5), (1,2)]` hold
equal `Known` values. -/
theorem computeRlc_spec_and_row_equalities (F : Type) [CommRing F]
    (challenge : F) (p : ℕ × ℕ) (hp : p ∈ ROW_EQUALITY) :
    (∀ (c : F) (advs : List F),
      computeRlc c advs = ∑ i ∈ Finset.range advs.length, advs.getD i 0 * c ^ i) ∧
    (rlcCellValue (.known challenge)
        (.known ((rlcAssignment.getD p.1 []).map (fun n => (n : F)))) =
      rlcCellValue (.known challenge)
        (.known ((rlcAssignment.getD p.2 []).map (fun n => (n : F)))) ∧
      ∃ v : F,
        rlcCellValue (.known challenge)
          (.known ((rlcAssignment.getD p.1 []).map (fun n => (n : F)))) = Value.known v) := by
  refine ⟨?_, ?_, ⟨_, rfl⟩⟩
  · intro c advs
    have h := computeRlc_foldl_aux c advs 0 1
    simpa [computeRlc] using h
  · fin_cases hp <;> rfl

/-- Folding `eval_vanish`'s loop from an arbitrary accumulator multiplies it
by the product of the shifted terms. -/
theorem foldl_mul_sub {F : Type} [CommRing F] (alpha x : F) (terms : List F) :
    terms.foldl (fun poly term => poly * (term - alpha)) x =
      x * (terms.map (fun t => t - alpha)).prod := by
  induction terms generalizing x with
  | nil => simp
  | cons t l ih => simp [List.foldl_cons, ih, mul_assoc]

/-- `eval_vanish` computes the product of `(term - alpha)` over the terms. -/
theorem evalVanish_eq_prod {F : Type} [CommRing F] (alpha : F) (terms : List F) :
    evalVanish alpha terms = (terms.map (fun t => t - alpha)).prod := by
  simpa [evalVanish] using foldl_mul_sub alpha 1 terms

/-- Folding `vanishPoly`'s loop from an arbitrary accumulator multiplies it
by the product of the linear factors. -/
theorem foldl_mul_linear {F : Type} [CommRing F] (x : Polynomial F) (terms : List F) :
    terms.foldl (fun poly term => poly * (Polynomial.C term - Polynomial.X)) x =
      x * (terms.map (fun t => Polynomial.C t - Polynomial.X)).prod := by
  induction terms generalizing x with
  | nil => simp
  | cons t l ih => simp [List.foldl_cons, ih, mul_assoc]

/-- `vanishPoly` is the product of the linear factors `C t - X`. -/
theorem vanishPoly_eq_prod {F : Type} [CommRing F] (terms : List F) :
    vanishPoly terms = (terms.map (fun t => Polynomial.C t - Polynomial.X)).prod := by
  simpa [vanishPoly] using foldl_mul_linear 1 terms

/-- Evaluating `vanishPoly` at a challenge recovers `eval_vanish`. -/
theorem vanishPoly_eval {F : Type} [CommRing F] (alpha : F) (terms : List F) :
    (vanishPoly terms).eval alpha = evalVanish alpha terms := by
  rw [vanishPoly_eq_prod, evalVanish_eq_prod, Polynomial.eval_list_prod, List.map_map]
  simp only [Function.comp_def, Polynomial.eval_sub, Polynomial.eval_C, Polynomial.eval_X]

/-- The degree of `vanishPoly` is at most the number of terms. -/
theorem vanishPoly_natDegree_le {F : Type} [CommRing F] (terms : List F) :
    (vanishPoly terms).natDegree ≤ terms.length := by
  rw [vanishPoly_eq_prod]
  refine le_trans (Polynomial.natDegree_list_prod_le _) ?_
  rw [List.map_map]
  refine le_trans (List.sum_le_card_nsmul _ 1 ?_) ?_
  · intro x hx
    simp only [List.mem_map, Function.comp_def] at hx
    obtain ⟨t, _, rfl⟩ := hx
    refine le_trans (Polynomial.natDegree_sub_le _ _) (max_le ?_ Polynomial.natDegree_X_le)
    simp [Polynomial.natDegree_C]
  · simp

/-- C5: for the fixed `SUDUKO` puzzle and the `SOLUTION` witness, every one
of the 27 groups (9 rows, 9 columns, 9 blocks) and every challenge value
`α` satisfy: the product of `(cell - α)` over the group's cells computed
by `eval_vanish` equals the product of `(n - α)` over `n ∈ {1,...,9}`;
and for the solution `SOLUTION_DUP` with a duplicated digit in row 0,
the two products differ as polynomials in `α` and agree for at most 9
challenge values. -/
theorem sudoku_vanishing_check (F : Type) [Field F] (hchar : (90720 : F) ≠ 0) :
    ((sudokuGroups (gridVals SUDUKO SOLUTION)).length = 27 ∧
     ∀ α : F, ∀ g ∈ sudokuGroups (gridVals SUDUKO SOLUTION),
       evalVanish α (g.map (Nat.cast : ℕ → F)) =
         evalVanish α (refNumbers.map (Nat.cast : ℕ → F))) ∧
    (vanishPoly (dupRow.map (Nat.cast : ℕ → F)) ≠
        vanishPoly (refNumbers.map (Nat.cast : ℕ → F)) ∧
      ∀ s : Finset F,
        (∀ α ∈ s, evalVanish α (dupRow.map (Nat.cast : ℕ → F)) =
          evalVanish α (refNumbers.map (Nat.cast : ℕ → F))) → s.card ≤ 9) := by
  have hperm : ∀ g ∈ sudokuGroups (gridVals SUDUKO SOLUTION),
      (g : Multiset ℕ) = (refNumbers : Multiset ℕ) := by decide
  have hB : dupRow = [5, 3, 5, 6, 7, 8, 9, 1, 2] := by decide
  have hRef : refNumbers = [1, 2, 3, 4, 5, 6, 7, 8, 9] := by decide
  have hB0 : evalVanish (0 : F) (dupRow.map (Nat.cast : ℕ → F)) = 453600 := by
    rw [hB]
    simp [evalVanish]
    norm_num
  have hR0 : evalVanish (0 : F) (refNumbers.map (Nat.cast : ℕ → F)) = 362880 := by
    rw [hRef]
    simp [evalVanish]
    norm_num
  have hne : vanishPoly (dupRow.map (Nat.cast : ℕ → F)) ≠
      vanishPoly (refNumbers.map (Nat.cast : ℕ → F)) := by
    intro heq
    apply hchar
    have h0 := congrArg (Polynomial.eval (0 : F)) heq
    rw [vanishPoly_eval, vanishPoly_eval, hB0, hR0] at h0
    have h90 : (90720 : F) = 453600 - 362880 := by norm_num
    rw [h90, h0, sub_self]
  refine ⟨⟨by decide, ?_⟩, hne, ?_⟩
  · intro α g hg
    have hp : g.Perm refNumbers := Multiset.coe_eq_coe.mp (hperm g hg)
    rw [evalVanish_eq_prod, evalVanish_eq_prod]
    exact List.Perm.prod_eq ((hp.map _).map _)
  · intro s hs
    classical
    have hdne : vanishPoly (dupRow.map (Nat.cast : ℕ → F)) -
        vanishPoly (refNumbers.map (Nat.cast : ℕ → F)) ≠ 0 := sub_ne_zero.mpr hne
    have hsub : s ⊆ (vanishPoly (dupRow.map (Nat.cast : ℕ → F)) -
        vanishPoly (refNumbers.map (Nat.cast : ℕ → F))).roots.toFinset := by
      intro α hα
      rw [Multiset.mem_toFinset, Polynomial.mem_roots']
      refine ⟨hdne, ?_⟩
      have heval := hs α hα
      simp only [Polynomial.IsRoot, Polynomial.eval_sub, vanishPoly_eval]
      rw [heval, sub_self]
    have hlen1 : dupRow.length = 9 := by decide
    have hlen2 : refNumbers.length = 9 := by decide
    calc s.card
        ≤ _ := Finset.card_le_card hsub
      _ ≤ Multiset.card (vanishPoly (dupRow.map (Nat.cast : ℕ → F)) -
            vanishPoly (refNumbers.map (Nat.cast : ℕ → F))).roots :=
          Multiset.toFinset_card_le _
      _ ≤ _ := Polynomial.card_roots' _
      _ ≤ 9 := by
          refine le_trans (Polynomial.natDegree_sub_le _ _) ?_
          have h1 := vanishPoly_natDegree_le (dupRow.map (Nat.cast : ℕ → F))
          have h2 := vanishPoly_natDegree_le (refNumbers.map (Nat.cast : ℕ → F))
          simp only [List.length_map, hlen1, hlen2] at h1 h2
          omega

/-- Witness for `sudoku_vanishing_check` at `F = ZMod 11` (where
`90720 = 3 ≠ 0`). -/
theorem sudoku_vanishing_check_witness :
    ((90720 : ZMod 11) ≠ 0) ∧
    (((sudokuGroups (gridVals SUDUKO SOLUTION)).length = 27 ∧
     ∀ α : ZMod 11, ∀ g ∈ sudokuGroups (gridVals SUDUKO SOLUTION),
       evalVanish α (g.map (Nat.cast : ℕ → ZMod 11)) =
         evalVanish α (refNumbers.map (Nat.cast : ℕ → ZMod 11))) ∧
    (vanishPoly (dupRow.map (Nat.cast : ℕ → ZMod 11)) ≠
        vanishPoly (refNumbers.map (Nat.cast : ℕ → ZMod 11)) ∧
      ∀ s : Finset (ZMod 11),
        (∀ α ∈ s, evalVanish α (dupRow.map (Nat.cast : ℕ → ZMod 11)) =
          evalVanish α (refNumbers.map (Nat.cast : ℕ → ZMod 11))) → s.card ≤ 9)) :=
  ⟨by decide, sudoku_vanishing_check (ZMod 11) (by decide)⟩

/-- The "arith" gate as left by the `bit` region reduces to `w0 * w1`: with
the effective last-write-wins coefficients of `bitFixedWrites` the gate
expression evaluates to `v * v` when both bit cells hold `v`. -/
theorem bit_gate_eval_eq_sq {F : Type} [CommRing F] (v : F) :
    ∀ e ∈ arithGate F, e.eval (bitCellEnv F v) = v * v := by
  intro e he
  simp only [arithGate, List.mem_singleton] at he
  subst he
  show Expr.eval _ _ = v * v
  norm_num [Expr.eval, bitCellEnv, lastWrite, bitFixedWrites,
    COL_C0, COL_C1, COL_C2, COL_CC, COL_CM]

/-- C9 (documents a code bug in `ArithmeticChip::bit`): the fixed writes
labeled "c0", "c1" and "c2" all target column `c0`, so under
last-write-wins the effective coefficients are `c0 = 0`, `c1 = 0`,
`c2 = 0`, `cm = 1`, `cc = 0`, and the "arith" gate expression reduces to
`w0 * w1 = v * v` at the bit row.  A `false` bit satisfies the gate, but
a `true` bit — a valid input according to the chip's own documentation —
evaluates the gate to `1 ≠ 0` over the bn256 scalar field: the gate as
coded is violated at `b = true`. -/
theorem bit_gate_violated_at_true (F : Type) [CommRing F] :
    (lastWrite (bitFixedWrites F) COL_C0 = 0 ∧
     lastWrite (bitFixedWrites F) COL_C1 = 0 ∧
     lastWrite (bitFixedWrites F) COL_C2 = 0 ∧
     lastWrite (bitFixedWrites F) COL_CM = 1 ∧
     lastWrite (bitFixedWrites F) COL_CC = 0) ∧
    (∀ v : F, ∀ e ∈ arithGate F, e.eval (bitCellEnv F v) = v * v) ∧
    (∀ e ∈ arithGate Fr, e.eval (bitCellEnv Fr (bitWitnessVal Fr false)) = 0) ∧
    (∀ e ∈ arithGate Fr, e.eval (bitCellEnv Fr (bitWitnessVal Fr true)) = 1) ∧
    (1 : Fr) ≠ 0 := by
  refine ⟨⟨rfl, rfl, rfl, rfl, rfl⟩, fun v => bit_gate_eval_eq_sq v, ?_, ?_, by decide⟩
  · intro e he
    simpa [bitWitnessVal] using bit_gate_eval_eq_sq (bitWitnessVal Fr false) e he
  · intro e he
    simpa [bitWitnessVal] using bit_gate_eval_eq_sq (bitWitnessVal Fr true) e he

/-- Indexing the zip of a list with its own tail: entry `i` pairs the list's
entries `i` and `i + 1` (the shape of Rust's `windows(2)`). -/
theorem zip_tail_get {α : Type} (l : List α) (i : ℕ) (a b : α)
    (ha : l.get? i = some a) (hb : l.get? (i + 1) = some b) :
    (l.zip l.tail).get? i = some (a, b) := by
  induction l generalizing i with
  | nil => simp at ha
  | cons x xs ih =>
      cases xs with
      | nil =>
          cases i with
          | zero => simp at hb
          | succ j => simp at ha
      | cons y ys =>
          cases i with
          | zero =>
              simp only [List.get?_cons_zero] at ha
              simp only [List.get?_cons_succ, List.get?_cons_zero] at hb
              cases ha
              cases hb
              rfl
          | succ j =>
              simp only [List.get?_cons_succ] at ha hb
              simpa only [List.tail_cons, List.zip_cons_cons, List.get?_cons_succ]
                using ih j ha hb

/-- C10: `RwTable::assign_with_region` enables the table's selector exactly
on the rows `0 .. ROWS-2` — never on the final row — i.e. exactly on the
rows with a successor row inside the region, which is where the
"delta_gate" (querying `addr`/`rw_counter` at `Rotation::next()`) is
active; and each such row's delta cell holds the wrapping 64-bit
difference `key(next).wrapping_sub(key(cur))` of the packed
`addr << 32 | rw_counter` keys. -/
theorem rwTable_selector_and_deltas (F : Type) (ROWS : ℕ) (rows : List (RwRow F))
    (hlen : rows.length = ROWS) (i : ℕ) :
    (i ∈ rwEnabledRows ROWS ↔ i + 1 < ROWS) ∧
    (i + 1 < ROWS → ∃ cur nxt : RwRow F,
      rows.get? i = some cur ∧ rows.get? (i + 1) = some nxt ∧
      (rwDeltas rows).get? i = some (wrappingSub64 nxt.key cur.key)) := by
  constructor
  · simp only [rwEnabledRows, List.mem_filter, List.mem_range, bne_iff_ne, ne_eq]
    omega
  · intro hi
    have hi1 : i < rows.length := by omega
    have hi2 : i + 1 < rows.length := by omega
    refine ⟨rows.get ⟨i, hi1⟩, rows.get ⟨i + 1, hi2⟩,
      List.get?_eq_get hi1, List.get?_eq_get hi2, ?_⟩
    have hz := zip_tail_get rows i _ _ (List.get?_eq_get hi1) (List.get?_eq_get hi2)
    simp only [rwDeltas, List.get?_map, hz, Option.map_some']

/-- Witness for `rwTable_selector_and_deltas` at the rows of
`session-9.rs::main` (`ROWS = 4`) and row 0. -/
theorem rwTable_selector_and_deltas_witness :
    (mainRwRows.length = 4) ∧
    ((0 ∈ rwEnabledRows 4 ↔ 0 + 1 < 4) ∧
    (0 + 1 < 4 → ∃ cur nxt : RwRow ℤ,
      mainRwRows.get? 0 = some cur ∧ mainRwRows.get? (0 + 1) = some nxt ∧
      (rwDeltas mainRwRows).get? 0 = some (wrappingSub64 nxt.key cur.key))) :=
  ⟨rfl, rwTable_selector_and_deltas ℤ 4 mainRwRows rfl 0⟩

/-- The shape of `alloc_row`'s events is independent of both the challenge
value and the row value. -/
theorem allocRowEvents_shape (F : Type) [CommRing F] (c c' : Value F)
    (v v' : Value (F × F × F)) :
    (allocRowEvents F c v).map LayoutEvent.shape =
      (allocRowEvents F c' v').map LayoutEvent.shape := rfl

/-- The adder loop: with a witness of length at least `n`, the witness pass
runs without panic and its first `n` iterations have the same shape as
the all-`Unknown` pass. -/
theorem adderStepsEvents_shape (F : Type) [CommRing F] (vs : List F) (n : ℕ)
    (h : n ≤ vs.length) :
    ∃ evs evs', adderStepsEvents F (.known vs) n = some evs ∧
      adderStepsEvents F .unknown n = some evs' ∧
      evs.map LayoutEvent.shape = evs'.map LayoutEvent.shape := by
  induction n with
  | zero => exact ⟨[], [], rfl, rfl, rfl⟩
  | succ n ih =>
      obtain ⟨evs, evs', h1, h2, h3⟩ := ih (by omega)
      have hn : n < vs.length := by omega
      have hget : vs[n]? = some vs[n] := List.getElem?_eq_getElem hn
      refine ⟨evs ++ [.assignAdvice 0 n (.known vs[n]), .enableSelector 0 n],
        evs' ++ [.assignAdvice 0 n .unknown, .enableSelector 0 n], ?_, ?_, ?_⟩
      · simp [adderStepsEvents, h1, hget]
      · simp [adderStepsEvents, h2]
      · simp [h3, LayoutEvent.shape]

/-- The RLC row-allocation loop: with a witness of length at least `n`, the
witness pass runs without panic and has the same shape as the
all-`Unknown` pass, for every challenge value. -/
theorem session7LoopEvents_shape (F : Type) [CommRing F] (chal : Value F)
    (asg : List (F × F × F)) (n : ℕ) (h : n ≤ asg.length) :
    ∃ evs evs', session7LoopEvents F chal (.known asg) n = some evs ∧
      session7LoopEvents F .unknown .unknown n = some evs' ∧
      evs.map LayoutEvent.shape = evs'.map LayoutEvent.shape := by
  induction n with
  | zero => exact ⟨[], [], rfl, rfl, rfl⟩
  | succ n ih =>
      obtain ⟨evs, evs', h1, h2, h3⟩ := ih (by omega)
      have hn : n < asg.length := by omega
      have hget : asg[n]? = some asg[n] := List.getElem?_eq_getElem hn
      refine ⟨evs ++ allocRowEvents F chal (.known asg[n]),
        evs' ++ allocRowEvents F .unknown .unknown, ?_, ?_, ?_⟩
      · simp [session7LoopEvents, h1, hget]
      · simp [session7LoopEvents, h2]
      · rw [List.map_append, List.map_append, h3,
          allocRowEvents_shape F chal .unknown (.known asg[n]) .unknown]

/-- C1: for the adder, the RLC circuit and the regex-automaton circuit,
running `synthesize` on the shape-only instance built by
`without_witnesses` (all values `Unknown`) never panics, and running it
with a `Known` witness (of well-formed length where the circuit indexes
into it) performs the identical sequence of region, column and row
assignments — the layout is independent of the witness values. -/
theorem layout_independent_of_witness (F : Type) [CommRing F]
    (vs : List F) (hvs : STEPS + 1 ≤ vs.length)
    (chal : Value F) (asg : List (F × F × F)) (hasg : 6 ≤ asg.length)
    (str : List Char) (sts : List ℕ) :
    ((adderSynthesize F .unknown).isSome ∧
      shapeOf (adderSynthesize F (.known vs)) = shapeOf (adderSynthesize F .unknown)) ∧
    ((session7Synthesize F .unknown .unknown).isSome ∧
      shapeOf (session7Synthesize F chal (.known asg)) =
        shapeOf (session7Synthesize F .unknown .unknown)) ∧
    ((tinyRamSynthesize F (.known str) (.known sts)).map LayoutEvent.shape =
      (tinyRamSynthesize F .unknown .unknown).map LayoutEvent.shape) := by
  obtain ⟨evsA, evsA', hA1, hA2, hA3⟩ := adderStepsEvents_shape F vs STEPS (by omega)
  have hlast : STEPS < vs.length := by omega
  have hgetLast : vs[STEPS]? = some vs[STEPS] := List.getElem?_eq_getElem hlast
  obtain ⟨evsS, evsS', hS1, hS2, hS3⟩ := session7LoopEvents_shape F chal asg 6 (by omega)
  have heqev : session7EqEvents F [(0, 3), (0, 5), (1, 2)] 6 =
      some [.constrainEqualCells (3, 0) (3, 3), .constrainEqualCells (3, 0) (3, 5),
        .constrainEqualCells (3, 1) (3, 2)] := rfl
  refine ⟨⟨?_, ?_⟩, ⟨?_, ?_⟩, ?_⟩
  · simp [adderSynthesize, hA2]
  · simp [adderSynthesize, shapeOf, hA1, hA2, hA3, hgetLast, LayoutEvent.shape]
  · simp [session7Synthesize, session7NumRows, ROW_EQUALITY, hS2, heqev]
  · simp [session7Synthesize, session7NumRows, ROW_EQUALITY, shapeOf,
      hS1, hS2, hS3, heqev, LayoutEvent.shape]
  · rfl

/-- Witness for `layout_independent_of_witness` at `F = ℤ` with length-6
witness vectors, an `Unknown` challenge, and the `main` inputs of the
regex circuit. -/
theorem layout_independent_of_witness_witness :
    (STEPS + 1 ≤ (List.replicate 6 (0 : ℤ)).length) ∧
    (6 ≤ (List.replicate 6 ((0 : ℤ), (0 : ℤ), (0 : ℤ))).length) ∧
    (((adderSynthesize ℤ .unknown).isSome ∧
      shapeOf (adderSynthesize ℤ (.known (List.replicate 6 (0 : ℤ)))) =
        shapeOf (adderSynthesize ℤ .unknown)) ∧
    ((session7Synthesize ℤ .unknown .unknown).isSome ∧
      shapeOf (session7Synthesize ℤ .unknown
          (.known (List.replicate 6 ((0 : ℤ), (0 : ℤ), (0 : ℤ))))) =
        shapeOf (session7Synthesize ℤ .unknown .unknown)) ∧
    ((tinyRamSynthesize ℤ (.known inputString) (.known stsTrace)).map LayoutEvent.shape =
      (tinyRamSynthesize ℤ .unknown .unknown).map LayoutEvent.shape)) :=
  ⟨by decide, by decide,
    layout_independent_of_witness ℤ (List.replicate 6 0) (by decide) .unknown
      (List.replicate 6 (0, 0, 0)) (by decide) inputString stsTrace⟩

/-- Witness for `computeRlc_spec_and_row_equalities` at `F = ℤ`,
challenge 2 and the pair `(0, 3)`. -/
theorem computeRlc_spec_and_row_equalities_witness :
    ((0, 3) ∈ ROW_EQUALITY) ∧
    ((∀ (c : ℤ) (advs : List ℤ),
      computeRlc c advs = ∑ i ∈ Finset.range advs.length, advs.getD i 0 * c ^ i) ∧
    (rlcCellValue (.known (2 : ℤ))
        (.known ((rlcAssignment.getD 0 []).map (fun n => (n : ℤ)))) =
      rlcCellValue (.known (2 : ℤ))
        (.known ((rlcAssignment.getD 3 []).map (fun n => (n : ℤ)))) ∧
      ∃ v : ℤ,
        rlcCellValue (.known (2 : ℤ))
          (.known ((rlcAssignment.getD 0 []).map (fun n => (n : ℤ)))) = Value.known v)) :=
  ⟨by decide, computeRlc_spec_and_row_equalities ℤ 2 (0, 3) (by decide)⟩

end HaloHero
